import Mathlib

/-!
Shallow embedding of the distributed Sudoku solver repository
(master/worker coordination engine plus the solver kernels), together
with proofs and refutations of the specification claims.

Conventions used throughout:

* a JavaScript array of arrays of numbers becomes a `List (List Nat)`;
* an out-of-range read (`undefined` in JS) becomes an `Option`-valued
  `entry`; a comparison `board[r][c] === num` with `num ≥ 1` becomes a
  comparison of `val` (the entry with default 0), which is exact because
  `undefined === num` is false in JS and `0 ≠ num`;
* in-place mutation becomes explicit state passing; unbounded `while`
  loops become fuelled recursion where the fuel provably dominates the
  loop's decreasing measure (the number of zero cells), so the embedding
  computes the same fixed point the JS loop does;
* `Math.random()`/`Date.now()` seeds are threaded explicitly.

Each definition names the source file and function it embeds.
-/

namespace Sudoku

/-- A board (or a column, an N×1 board; or a block) as the sources
represent it: a list of rows of naturals, 0 meaning empty. -/
abbrev Board := List (List Nat)

/-- The entry at row `r`, column `c`; `none` when out of range
(JS `board[r][c]` being `undefined`). -/
def entry (b : Board) (r c : Nat) : Option Nat :=
  (b.get? r).bind fun row => row.get? c

/-- The value at `(r, c)` with default 0.  For `num ≥ 1` the JS test
`board[r][c] === num` is exactly `val b r c = num`. -/
def val (b : Board) (r c : Nat) : Nat :=
  (entry b r c).getD 0

/-- `board[r][c] = v`.  `List.set` is a no-op out of range; the sources
only ever assign to cells they have just read as `0`, which are in
range, so this matches the JS mutation. -/
def setCell (b : Board) (r c v : Nat) : Board :=
  b.set r ((b.getD r []).set c v)

/-- Number of zero entries: the measure that every propagation or
backtracking step of the sources strictly decreases when it changes the
board. -/
def countZeros (b : Board) : Nat :=
  (b.map fun row => row.count 0).sum

/-! ## Block dimensions

`getBlockDimensions(n)` from `SudokuMULTI/src/ColumnBasedSolver/solver.js`
lines 7–20 (byte-identical copies live in `StochasticSearch/solver.js`
and the other variants): a perfect square yields `(√n, √n)`; otherwise
the loop scans `i` from `⌊√n⌋` down to 1 and returns the first divisor,
i.e. the largest divisor at most `√n`.  For `n ≥ 1` the loop always
terminates at `i = 1`; the JS `throw` is unreachable, and the `(0, 0)`
result of `findFactor n 0` below is likewise never produced. -/

/-- Integer square root by downward search, used in place of `Nat.sqrt`
so that concrete boards evaluate inside the kernel (`Nat.sqrt` is
defined by well-founded recursion and does not reduce);
`jsSqrt_eq_sqrt` below proves it equal to `Nat.sqrt`, i.e. to
`⌊Math.sqrt n⌋` of the JS. -/
def sqrtAux (n : Nat) : Nat → Nat
  | 0 => 0
  | k + 1 => if (k + 1) * (k + 1) ≤ n then k + 1 else sqrtAux n k

def jsSqrt (n : Nat) : Nat := sqrtAux n n

def findFactor (n : Nat) : Nat → Nat × Nat
  | 0 => (0, 0)
  | i + 1 => if n % (i + 1) = 0 then (i + 1, n / (i + 1)) else findFactor n i

def getBlockDimensions (n : Nat) : Nat × Nat :=
  if jsSqrt n * jsSqrt n = n then (jsSqrt n, jsSqrt n)
  else findFactor n (jsSqrt n)

/-! ## The naked-singles propagator

`isValid(board,row,col,num)` from
`SudokuMULTI/src/ColumnBasedSolver/solver.js` lines 23–54; the
byte-identical function is `isConsistent` in
`SudokuMULTI/src/StochasticSearch/master/master.js` lines 36–67 and
`StochasticSearch/solver.js`.  `num ≥ 1` everywhere it is called, so the
default-0 `val` reads match the JS `===` comparisons (out-of-range reads
are `undefined` in JS and never equal `num`). -/

def isValid (b : Board) (row col num : Nat) : Bool :=
  let n := b.length
  let br := (getBlockDimensions n).1
  let bc := (getBlockDimensions n).2
  let rs := row / br * br
  let cs := col / bc * bc
  !(((List.range n).any fun i => val b row i == num) ||
    ((List.range n).any fun i => val b i col == num) ||
    ((List.range br).any fun r => (List.range bc).any fun c =>
      val b (rs + r) (cs + c) == num))

/-- The candidate list computed inside `applyNakedSingles`
(solver.js lines 79–84): the numbers `1..n` that `isValid` accepts, in
ascending order. -/
def candidates (b : Board) (row col : Nat) : List Nat :=
  ((List.range b.length).map (· + 1)).filter fun num => isValid b row col num

/-- One cell visit of the `applyNakedSingles` scan (solver.js lines
77–90): an empty cell whose candidate list is a singleton is filled and
the `changed` flag is raised; any other cell leaves the state alone. -/
def nsStep (bc : Board × Bool) (p : Nat × Nat) : Board × Bool :=
  if entry bc.1 p.1 p.2 = some 0 then
    match candidates bc.1 p.1 p.2 with
    | [v] => (setCell bc.1 p.1 p.2 v, true)
    | _ => bc
  else bc

/-- The row-major cell order of the nested `for` loops. -/
def allPositions (n : Nat) : List (Nat × Nat) :=
  (List.range n).flatMap fun r => (List.range n).map fun c => (r, c)

/-- One full pass of the `while (changed)` body of `applyNakedSingles`
(solver.js lines 75–91): scan all cells row-major, filling naked singles
in place, and report whether anything changed. -/
def nsPass (b : Board) : Board × Bool :=
  (allPositions b.length).foldl nsStep (b, false)

/-- The `while (changed)` loop, with explicit fuel counting the passes.
The loop body strictly decreases `countZeros` whenever it reports a
change, so `countZeros b + 1` passes always reach the exit condition of
the unbounded JS loop. -/
def nsLoop : Nat → Board → Board
  | 0, b => b
  | fuel + 1, b =>
    let p := nsPass b
    if p.2 then nsLoop fuel p.1 else p.1

/-- `applyNakedSingles(board)` from
`SudokuMULTI/src/StochasticSearch/master/master.js` lines 88–122: the
same pass, but the loop is capped at `MAX_ITERATIONS = 100` passes (the
JS works on a copy and writes it back; the net effect is pure). -/
def applyNakedSinglesSS (b : Board) : Board :=
  nsLoop 100 b

/-! ## The backtracking solver

`findEmptyPosition` and `backtrackingSolver` from
`SudokuMULTI/src/ColumnBasedSolver/solver.js` lines 57–67 and 116–136;
the identical functions appear in the unnamed worker solver
(`src/unnamed/part_001` lines 25–82).  The JS recursion mutates the
board and returns a boolean; the embedding threads the board and
returns the pair.  Each recursive call happens on a board with one more
filled cell, so `countZeros b + 1` units of fuel always cover the JS
recursion depth; failure restores the board before returning, which is
exactly claim C10. -/

def findEmptyPosition (b : Board) : Option (Nat × Nat) :=
  (allPositions b.length).find? fun p => decide (entry b p.1 p.2 = some 0)

/-- The number loop of `backtrackingSolver` (solver.js lines 125–133),
parameterised by the recursive continuation `next`: try each `num`, on
a valid placement recurse, and on failure reset the cell to 0 and keep
trying. -/
def btsNums (next : Board → Bool × Board) (b : Board) (row col : Nat) :
    List Nat → Bool × Board
  | [] => (false, b)
  | num :: rest =>
    if isValid b row col num then
      match next (setCell b row col num) with
      | (true, b2) => (true, b2)
      | (false, b2) => btsNums next (setCell b2 row col 0) row col rest
    else btsNums next b row col rest

/-- `backtrackingSolver(board)` (solver.js lines 116–136) with explicit
fuel; `backtrackingSolver` below instantiates the fuel so that it never
runs out. -/
def bts : Nat → Board → Bool × Board
  | 0, b => (false, b)
  | fuel + 1, b =>
    match findEmptyPosition b with
    | none => (true, b)
    | some (row, col) =>
      btsNums (bts fuel) b row col ((List.range b.length).map (· + 1))

def backtrackingSolver (b : Board) : Bool × Board :=
  bts (countZeros b + 1) b

/-- The transitive cell-preservation relation used by C10: every
non-zero entry of `b` is still present in `b'`. -/
def keepsNonzero (b b' : Board) : Prop :=
  ∀ r c w, entry b r c = some w → w ≠ 0 → entry b' r c = some w

/-- No in-range cell of the board is empty (the JS
`findEmptyPosition === null` condition). -/
def noZeroCells (b : Board) : Prop :=
  ∀ r c, r < b.length → c < b.length → entry b r c ≠ some 0

/-! ## The column solver (`SudokuSolver`)

Embedding of the `SudokuSolver` class of
`SudokuMULTI/src/ColumnBasedSolver/solver.js` lines 195–377 (the
variant cited by the claims).  A column is an N×1 `Board`; the mutable
`this.seed` member is threaded as an explicit `Nat`. -/

/-- `Number.MAX_SAFE_INTEGER`. -/
def maxSafeInteger : Nat := 9007199254740991

/-- The seeded linear congruential step of `shuffleArray`
(solver.js lines 98–113). -/
def lcgNext (s : Nat) : Nat := (s * 9301 + 49297) % 233280

/-- Swap two positions of a list (the JS destructuring swap). -/
def listSwap {α : Type} (l : List α) (i j : Nat) : List α :=
  match l.get? i, l.get? j with
  | some a, some b => (l.set i b).set j a
  | _, _ => l

/-- The Fisher–Yates loop of `shuffleArray`, indices `k+1` down to 1.
The JS computes `Math.floor(random() * (i + 1))` in floating point; the
embedding uses the exact `s' * (i + 1) / 233280`.  A double-rounding
difference could only select a different permutation of the candidate
list, and no theorem below depends on the permutation chosen. -/
def fisherYatesAux {α : Type} : Nat → List α → Nat → List α
  | 0, l, _ => l
  | k + 1, l, s =>
    let s' := lcgNext s
    let j := s' * (k + 2) / 233280
    fisherYatesAux k (listSwap l (k + 1) j) s'

/-- `shuffleArray(array, seed)` (solver.js lines 98–113). -/
def shuffleArray {α : Type} (l : List α) (seed : Nat) : List α :=
  fisherYatesAux (l.length - 1) l seed

/-- `getFullBoardWithColumn(column, originalBoard, colIndex)`
(solver.js lines 201–210): overlay the column at `colIndex`. -/
def getFullBoardWithColumn (column ob : Board) (ci : Nat) : Board :=
  (List.range ob.length).foldl (fun fb row => setCell fb row ci (val column row 0)) ob

/-- `isValidInColumn(column, originalBoard, colIndex, row, value)`
(solver.js lines 215–253): `value` absent from the rest of the column,
from the row of the overlaid full board, and from the enclosing block
(the probed cell itself excepted). -/
def isValidInColumn (column ob : Board) (ci row value : Nat) : Bool :=
  if (List.range column.length).any
      (fun i => decide (i ≠ row) && (val column i 0 == value)) then false
  else
    let fullBoard := setCell (getFullBoardWithColumn column ob ci) row ci value
    let n := fullBoard.length
    if (List.range n).any
        (fun c => decide (c ≠ ci) && (val fullBoard row c == value)) then false
    else
      let br := (getBlockDimensions n).1
      let bc := (getBlockDimensions n).2
      let rs := row / br * br
      let cs := ci / bc * bc
      !((List.range br).any fun r =>
        (List.range bc).any fun c =>
          (decide (cs + c ≠ ci) || decide (rs + r ≠ row)) &&
          (val fullBoard (rs + r) (cs + c) == value))

/-- The candidate loop of `applyNakedSinglesForColumn` (solver.js lines
265–270): numbers `1..size` accepted by `isValidInColumn`, with
`size = originalBoard.length`. -/
def colCandidates (col ob : Board) (ci row : Nat) : List Nat :=
  ((List.range ob.length).map (· + 1)).filter fun num =>
    isValidInColumn col ob ci row num

/-- One row visit of the `applyNakedSinglesForColumn` scan (solver.js
lines 263–279): an empty cell with a unique candidate is filled and
marked sure; a non-empty cell is marked sure; anything else is left
alone. -/
def ansfcStep (ob : Board) (ci : Nat) (st : Board × List Bool × Bool)
    (row : Nat) : Board × List Bool × Bool :=
  if entry st.1 row 0 = some 0 then
    match colCandidates st.1 ob ci row with
    | [v] => (setCell st.1 row 0 v, st.2.1.set row true, true)
    | _ => st
  else (st.1, st.2.1.set row true, st.2.2)

/-- The `while (changed)` loop of `applyNakedSinglesForColumn`, with
one fold per pass; fuel as for `nsLoop`. -/
def ansfcLoop (ob : Board) (ci : Nat) : Nat → Board × List Bool → Board × List Bool
  | 0, cs => cs
  | fuel + 1, cs =>
    let st := (List.range ob.length).foldl (ansfcStep ob ci) (cs.1, cs.2, false)
    if st.2.2 then ansfcLoop ob ci fuel (st.1, st.2.1) else (st.1, st.2.1)

/-- `applyNakedSinglesForColumn(column, originalBoard, colIndex)`
(solver.js lines 256–284); `sureMask` starts as
`Array(size).fill(false)`. -/
def applyNakedSinglesForColumn (column ob : Board) (ci : Nat) :
    Board × List Bool :=
  ansfcLoop ob ci (countZeros column + 1) (column, List.replicate ob.length false)

/-- The number loop of `backtrackColumn` (solver.js lines 295–305),
parameterised by the recursive continuation `next` (the call for the
remaining empty positions): try each `num`, on a valid placement
recurse, and on failure reset the cell to 0 and keep trying. -/
def btcNums (ob : Board) (ci : Nat) (next : Board → Bool × Board)
    (col : Board) (row : Nat) : List Nat → Bool × Board
  | [] => (false, col)
  | num :: restNums =>
    if isValidInColumn col ob ci row num then
      match next (setCell col row 0 num) with
      | (true, col2) => (true, col2)
      | (false, col2) => btcNums ob ci next (setCell col2 row 0 0) row restNums
    else btcNums ob ci next col row restNums

/-- `backtrackColumn(column, originalBoard, colIndex, emptyPositions,
index, sureMask)` (solver.js lines 287–308), with the positions still
to fill as a list; `sureMask` is passed in the JS but never touched. -/
def backtrackColumn (ob : Board) (ci : Nat) : List Nat → Board → Bool × Board
  | [], col => (true, col)
  | row :: rest, col =>
    btcNums ob ci (backtrackColumn ob ci rest) col row
      ((List.range ob.length).map (· + 1))

/-- The shuffled-candidate loop of `stochasticBacktrackColumn`
(solver.js lines 330–339); the mutable `this.seed` is advanced by
`(seed + 1) % Number.MAX_SAFE_INTEGER` per tried number and threaded
through the recursion. -/
def sbtcNums (ob : Board) (ci : Nat) (next : Board → Nat → Bool × Board × Nat)
    (col : Board) (seed : Nat) (row : Nat) : List Nat → Bool × Board × Nat
  | [] => (false, col, seed)
  | num :: restNums =>
    match next (setCell col row 0 num) ((seed + 1) % maxSafeInteger) with
    | (true, col2, s2) => (true, col2, s2)
    | (false, col2, s2) => sbtcNums ob ci next (setCell col2 row 0 0) s2 row restNums

/-- `stochasticBacktrackColumn(column, originalBoard, colIndex,
emptyPositions, index, sureMask)` (solver.js lines 311–342). -/
def stochasticBacktrackColumn (ob : Board) (ci : Nat) :
    List Nat → Board → Nat → Bool × Board × Nat
  | [], col, seed => (true, col, seed)
  | row :: rest, col, seed =>
    sbtcNums ob ci (stochasticBacktrackColumn ob ci rest) col seed row
      (shuffleArray (colCandidates col ob ci row) (seed + row * 100 + ci))

/-- `hybridSolve(column, originalBoard, colIndex)` (solver.js lines
345–376).  `none` is the JS `throw` (column cannot be solved); the
second component is the final `this.seed`. -/
def hybridSolve (column ob : Board) (ci seed : Nat) :
    Option (Board × List Bool) × Nat :=
  let res := applyNakedSinglesForColumn column ob ci
  let emptyPositions := (List.range res.1.length).filter fun row =>
    decide (entry res.1 row 0 = some 0)
  if emptyPositions.isEmpty then (some (res.1, res.2), seed)
  else
    match stochasticBacktrackColumn ob ci emptyPositions res.1 seed with
    | (true, sc, s2) => (some (sc, res.2), s2)
    | (false, _, s2) =>
      match backtrackColumn ob ci emptyPositions column with
      | (true, dc) => (some (dc, List.replicate column.length false), s2)
      | (false, _) => (none, s2)

structure CBSubJob where
  seq : Nat
  board : Board
  colIndex : Nat
  originalBoard : Board
  partialBoard : Option Board
  isRequeued : Bool
deriving DecidableEq

structure CBResult where
  seq : Nat
  board : Board
  colIndex : Nat
  sure : List Bool
deriving DecidableEq

structure CBJobState where
  jobQueue : List CBSubJob
  completedJobs : List CBResult
  currentBlueprint : Board
  originalSubJobs : List CBSubJob
  nextSubJobIndex : Option Nat
  lastUpdate : Nat
deriving DecidableEq

/-- One sub-job created by `splitAndQueueJob` (master.js lines 207–215):
the column at `col` as an N×1 board, plus the requeue fields. -/
def mkCBSubJob (board : Board) (col seq : Nat) (isRequeued : Bool) : CBSubJob :=
  { seq := seq,
    board := board.map fun row => [row.getD col 0],
    colIndex := col,
    originalBoard := board,
    partialBoard := if isRequeued then some board else none,
    isRequeued := isRequeued }

/-- `splitAndQueueJob(jobId, board, gridSize, isRequeued)` (master.js
lines 202–220): one sub-job per column index, no skipping, sequence
numbers starting at 1; all sub-jobs are pushed onto the queue and the
created list is returned. -/
def cbSplitAndQueueJob (s : CBJobState) (board : Board) (gridSize : Nat)
    (isRequeued : Bool) : CBJobState × List CBSubJob :=
  let subJobs := (List.range gridSize).map fun col =>
    mkCBSubJob board col (col + 1) isRequeued
  ({ s with jobQueue := s.jobQueue ++ subJobs,
            nextSubJobIndex := some (gridSize + 1) }, subJobs)

/-- The per-result inner loop of `updatePartialBoardFromSure`
(master.js lines 167–172): for every row of the result's column, keep
the reported value where `sure[row]` is truthy and write 0 otherwise. -/
def cbUpdateStep (gridSize : Nat) (ub : Board) (result : CBResult) : Board :=
  (List.range gridSize).foldl
    (fun ub2 row =>
      setCell ub2 row result.colIndex
        (if result.sure.getD row false then val result.board row 0 else 0))
    ub

/-- `updatePartialBoardFromSure(jobId)` (master.js lines 162–179):
rebuild `currentBlueprint` from its current value by overwriting every
completed column with its sure cells (and 0 elsewhere), then refresh
each original sub-job's `partialBoard`. -/
def cbUpdatePartialBoardFromSure (s : CBJobState) : CBJobState :=
  match s.originalSubJobs with
  | [] => s
  | j0 :: _ =>
    let gridSize := j0.originalBoard.length
    let updated := s.completedJobs.foldl (cbUpdateStep gridSize) s.currentBlueprint
    { s with currentBlueprint := updated,
             originalSubJobs := s.originalSubJobs.map fun j =>
               { j with partialBoard := some updated, isRequeued := true } }

/-- The `/result` endpoint of the ColumnBasedSolver master (master.js
lines 276–295): append the payload to `completedJobs` unconditionally
(no duplicate check) and refresh the activity timestamp.  `none` models
a payload failing the missing-fields check (HTTP 400); a well-typed
payload always passes it. -/
def cbResultHandler (payload : Option CBResult) (s : CBJobState) (now : Nat) :
    Nat × CBJobState :=
  match payload with
  | none => (400, s)
  | some p =>
    (200, { s with completedJobs := s.completedJobs ++ [p], lastUpdate := now })

/-- `isEmptyBoard(board)` (master.js lines 34–36). -/
def isEmptyBoard (b : Board) : Bool :=
  b.all fun row => row.all fun cell => cell == 0

/-- The `/solve` endpoint of the ColumnBasedSolver master (master.js
lines 234–259).  The only validation is `Array.isArray(board)`
(modelled by the `Option`); any array-shaped board is accepted.  An
empty board is pre-solved on column 0 via `hybridSolve` (`none` models
the HTTP 500 path when that throws); the board is then split into one
sub-job per column and the job state is stored.  Returns the HTTP
status and the created job state. -/
def cbSolveHandler (boardJson : Option Board) (seed now : Nat) :
    Nat × Option CBJobState :=
  match boardJson with
  | none => (400, none)
  | some board =>
    let gridSize := board.length
    if isEmptyBoard board then
      match hybridSolve (board.map fun r => [r.getD 0 0]) board 0 seed with
      | (none, _) => (500, none)
      | (some res, _) =>
        let sure2 := res.2.map fun _ => true
        let board2 := (List.range gridSize).foldl
          (fun b i => setCell b i 0 (val res.1 i 0)) board
        let s0 : CBJobState :=
          { jobQueue := [],
            completedJobs :=
              [{ seq := 1, board := res.1, colIndex := 0, sure := sure2 }],
            currentBlueprint := board2,
            originalSubJobs := [],
            nextSubJobIndex := some 2,
            lastUpdate := now }
        let split := cbSplitAndQueueJob s0 board2 gridSize false
        (200, some { split.1 with originalSubJobs := split.2, lastUpdate := now })
    else
      let s0 : CBJobState :=
        { jobQueue := [], completedJobs := [], currentBlueprint := board,
          originalSubJobs := [], nextSubJobIndex := none, lastUpdate := now }
      let split := cbSplitAndQueueJob s0 board gridSize false
      (200, some { split.1 with originalSubJobs := split.2, lastUpdate := now })

/-! ## The StochasticSearch master

Embedding of the per-job state and operations of
`SudokuMULTI/src/StochasticSearch/master/master.js`, projected onto one
job as above.  This master keeps a separate `initialBlueprintStore` and
an `iterationCounts` entry (`iteration = 0` plays the role of the
absent JS entry, normalised by `|| 1` where the source does). -/

structure SSResult where
  seq : Nat
  board : Board
  blockRow : Nat
  blockCol : Nat
  sure : List (List Bool)
  iteration : Nat
deriving DecidableEq

structure SSSubJob where
  seq : Nat
  board : Board
  blockRow : Nat
  blockCol : Nat
  originalBoard : Board
  iteration : Nat
  isRequeued : Bool
  partialBoard : Option Board
deriving DecidableEq

structure SSJobState where
  jobQueue : List SSSubJob
  completedJobs : List SSResult
  jobSubJobCount : Nat
  originalSubJobs : List SSSubJob
  currentBlueprint : Board
  initialBlueprint : Board
  iteration : Nat
  lastUpdate : Nat
deriving DecidableEq

/-- Truthiness of `sure && sure[i][j]` for a two-dimensional mask. -/
def bval (m : List (List Bool)) (i j : Nat) : Bool :=
  (((m.get? i).bind fun row => row.get? j).getD false)

/-- `iterationCounts[parentId] || 1` (master.js lines 299, 425, 506). -/
def currentIterationOf (s : SSJobState) : Nat :=
  if s.iteration = 0 then 1 else s.iteration

/-- The filter `completedJobs[parentId].filter(job => job.iteration ===
currentIteration)` used by aggregation, combining and the completion
check (master.js lines 300, 426, 507). -/
def currentResults (s : SSJobState) : List SSResult :=
  s.completedJobs.filter fun j => j.iteration == currentIterationOf s

/-- `extractBlock(board, blockRow, blockCol)` (master.js lines
205–219). -/
def extractBlock (board : Board) (blockRow blockCol : Nat) : Board :=
  let n := board.length
  let br := (getBlockDimensions n).1
  let bc := (getBlockDimensions n).2
  (List.range br).map fun i => (List.range bc).map fun j =>
    val board (blockRow * br + i) (blockCol * bc + j)

/-- The sub-job object built by `splitAndQueueJob` of the
StochasticSearch master (master.js lines 249–262). -/
def mkSSSubJob (board : Board) (iter2 : Nat) (isRequeued : Bool)
    (p : Nat × Nat) (seq : Nat) : SSSubJob :=
  { seq := seq, board := extractBlock board p.1 p.2, blockRow := p.1,
    blockCol := p.2, originalBoard := board, iteration := iter2,
    isRequeued := isRequeued,
    partialBoard := if isRequeued then some board else none }

/-- One loop body of `splitAndQueueJob` of the StochasticSearch master
(master.js lines 240–267): skip a block with no zeros, otherwise create
a sub-job numbered by the running counter. -/
def ssSplitStep (board : Board) (iter2 : Nat) (isRequeued : Bool)
    (acc : List SSSubJob × Nat) (p : Nat × Nat) : List SSSubJob × Nat :=
  let block := extractBlock board p.1 p.2
  if block.all (fun row => row.all fun cell => decide (cell ≠ 0)) then acc
  else (acc.1 ++ [mkSSSubJob board iter2 isRequeued p acc.2], acc.2 + 1)

/-- The row-major block index order of the nested loops. -/
def blockPositions (numBlockRows numBlockCols : Nat) : List (Nat × Nat) :=
  (List.range numBlockRows).flatMap fun i =>
    (List.range numBlockCols).map fun j => (i, j)

/-- `splitAndQueueJob(jobId, board, gridSize, isRequeued)` of the
StochasticSearch master (master.js lines 222–275): bump (or reset) the
iteration, create a sub-job for every block containing a zero, queue
them and record their count. -/
def ssSplitAndQueueJob (s : SSJobState) (board : Board) (gridSize : Nat)
    (isRequeued : Bool) : SSJobState × List SSSubJob :=
  let br := (getBlockDimensions gridSize).1
  let bc := (getBlockDimensions gridSize).2
  let iter2 := if isRequeued then s.iteration + 1 else 1
  let subJobs := ((blockPositions (gridSize / br) (gridSize / bc)).foldl
    (ssSplitStep board iter2 isRequeued) ([], 1)).1
  ({ s with jobQueue := s.jobQueue ++ subJobs,
            jobSubJobCount := subJobs.length,
            iteration := iter2 }, subJobs)

/-- The per-cell clue restore of `updatePartialBoardFromSure`
(master.js lines 290–296). -/
def ssInitStepInner (blueprint : Board) (i : Nat) (ub : Board) (j : Nat) :
    Board :=
  if decide (val blueprint i j ≠ 0) then setCell ub i j (val blueprint i j)
  else ub

/-- One row of the clue-restore loop. -/
def ssInitStepOuter (blueprint : Board) (n : Nat) (ub : Board) (i : Nat) :
    Board :=
  (List.range n).foldl (ssInitStepInner blueprint i) ub

/-- One row of the sure-cell overlay of `updatePartialBoardFromSure`
(master.js lines 307–313). -/
def ssOverlayInner (r : SSResult) (br bc : Nat) (ub2 : Board) (i : Nat) :
    Board :=
  (List.range bc).foldl
    (fun ub3 j =>
      if bval r.sure i j then
        setCell ub3 (r.blockRow * br + i) (r.blockCol * bc + j) (val r.board i j)
      else ub3)
    ub2

/-- The per-result sure-cell overlay (master.js lines 302–314). -/
def ssOverlayStep (br bc : Nat) (ub : Board) (r : SSResult) : Board :=
  (List.range br).foldl (ssOverlayInner r br bc) ub

/-- `updatePartialBoardFromSure(parentId)` of the StochasticSearch
master (master.js lines 278–322): start from an all-zero board, restore
the non-zero cells of `initialBlueprint`, overlay the sure cells of the
current iteration's completed results, run naked-singles propagation,
and store the outcome as `currentBlueprint`. -/
def ssUpdatePartialBoardFromSure (s : SSJobState) : SSJobState :=
  let blueprint := s.initialBlueprint
  let n := blueprint.length
  let br := (getBlockDimensions n).1
  let bc := (getBlockDimensions n).2
  let base : Board := List.replicate n (List.replicate n 0)
  let withInit := (List.range n).foldl (ssInitStepOuter blueprint n) base
  let overlaid := (currentResults s).foldl (ssOverlayStep br bc) withInit
  { s with currentBlueprint := applyNakedSinglesSS overlaid }

/-- `combineSections(parentId)` of the StochasticSearch master
(master.js lines 412–450): start from `currentBlueprint`; sure cells
overwrite, unsure values fill only still-empty cells. -/
def ssCombineSections (s : SSJobState) : Board :=
  let blueprint := s.currentBlueprint
  let n := blueprint.length
  let br := (getBlockDimensions n).1
  let bc := (getBlockDimensions n).2
  (currentResults s).foldl
    (fun cb r =>
      (List.range br).foldl
        (fun cb2 i =>
          (List.range bc).foldl
            (fun cb3 j =>
              if bval r.sure i j then
                setCell cb3 (r.blockRow * br + i) (r.blockCol * bc + j)
                  (val r.board i j)
              else if val cb3 (r.blockRow * br + i) (r.blockCol * bc + j) = 0 then
                setCell cb3 (r.blockRow * br + i) (r.blockCol * bc + j)
                  (val r.board i j)
              else cb3)
            cb2)
        cb)
    blueprint

/-- The `/result` endpoint of the StochasticSearch master (master.js
lines 735–770): store the result with `iteration: iteration || 1`
regardless of the job's current iteration, refresh the activity
timestamp, and rebuild the blueprint.  `none` models a payload failing
the missing-fields check (HTTP 400). -/
def ssResultHandler (payload : Option SSResult) (s : SSJobState) (now : Nat) :
    Nat × SSJobState :=
  match payload with
  | none => (400, s)
  | some p =>
    let stored : SSResult :=
      { p with iteration := if p.iteration = 0 then 1 else p.iteration }
    let s1 := { s with completedJobs := s.completedJobs ++ [stored],
                       lastUpdate := now }
    (200, ssUpdatePartialBoardFromSure s1)

/-! ## The RuleBasedSolver master

Embedding of `SudokuSingle/src/RuleBasedSolver/master/master.js`,
projected per job: `pendingJobs[id]`, `completedJobs[id]` and
`currentBlueprints[id]` become the fields of one `RBJobView`. -/

/-- `hasDuplicates(arr)` (master.js lines 24–27): duplicated non-zero
values (a JS `Set` collapses equal numbers; `dedup` does the same). -/
def hasDuplicates (arr : List Nat) : Bool :=
  let filtered := arr.filter fun x => decide (x ≠ 0)
  decide (filtered.dedup.length ≠ filtered.length)

/-- `isValidGrid(board)` (master.js lines 30–79): rectangular `n × n`,
no duplicated non-zero value in any row, column, or (when `n` is a
perfect square) block.  The JS `typeof cell !== 'number'` check cannot
fail for a `Nat` cell. -/
def isValidGrid (board : Board) : Bool :=
  if board.isEmpty then false
  else
    let n := board.length
    (board.all fun row => (row.length == n) && !(hasDuplicates row)) &&
    ((List.range n).all fun col =>
      !(hasDuplicates (board.map fun row => row.getD col 0))) &&
    (if jsSqrt n * jsSqrt n == n then
      (List.range (jsSqrt n)).all fun blockRow =>
        (List.range (jsSqrt n)).all fun blockCol =>
          !(hasDuplicates ((List.range (jsSqrt n)).flatMap fun i =>
            (List.range (jsSqrt n)).map fun j =>
              val board (blockRow * jsSqrt n + i) (blockCol * jsSqrt n + j)))
     else true)

/-- The cell-validity helper of `applyNakedSinglesToBoard` (master.js
lines 88–101), whose block scan uses `Math.sqrt(n)` directly.  For a
perfect-square `n` this matches the JS exactly; for non-square `n` the
JS indexes rows by non-integer offsets (reading `undefined`), which is
not modelled — the theorems below evaluate it only behind the
rejected-input branch or on perfect-square boards. -/
def rbIsValid (b : Board) (row col num : Nat) : Bool :=
  let n := b.length
  let root := jsSqrt n
  let rs := row / root * root
  let cs := col / root * root
  !(((List.range n).any fun i => (val b row i == num) || (val b i col == num)) ||
    ((List.range root).any fun r => (List.range root).any fun c =>
      val b (rs + r) (cs + c) == num))

/-- One cell visit of the `applyNakedSinglesToBoard` scan (master.js
lines 105–120). -/
def rbNsStep (bc : Board × Bool) (p : Nat × Nat) : Board × Bool :=
  if entry bc.1 p.1 p.2 = some 0 then
    match ((List.range bc.1.length).map (· + 1)).filter
        (fun num => rbIsValid bc.1 p.1 p.2 num) with
    | [v] => (setCell bc.1 p.1 p.2 v, true)
    | _ => bc
  else bc

/-- The `while (changed)` loop of `applyNakedSinglesToBoard`. -/
def rbNsLoop : Nat → Board → Board
  | 0, b => b
  | fuel + 1, b =>
    let p := (allPositions b.length).foldl rbNsStep (b, false)
    if p.2 then rbNsLoop fuel p.1 else p.1

/-- `applyNakedSinglesToBoard(board)` (master.js lines 84–123). -/
def applyNakedSinglesToBoard (b : Board) : Board :=
  rbNsLoop (countZeros b + 1) b

/-- The pending assignment record `pendingJobs[id]` (master.js line
174). -/
structure RBPending where
  board : Board
  slaveId : Nat
  assignedAt : Nat
deriving DecidableEq

/-- The per-job view of the RuleBasedSolver master's stores. -/
structure RBJobView where
  pending : Option RBPending
  completed : List Board
  blueprint : Option Board
deriving DecidableEq

/-- The `/solve` endpoint of the RuleBasedSolver master (master.js lines
137–162): reject non-arrays and boards failing `isValidGrid` with 400
and store nothing; otherwise enqueue the job and store the propagated
partial board.  The result pair is `(status, the queued board and
stored blueprint, if any)`. -/
def rbSolveHandler (boardJson : Option Board) : Nat × Option (Board × Board) :=
  match boardJson with
  | none => (400, none)
  | some board =>
    if !(isValidGrid board) then (400, none)
    else (200, some (board, applyNakedSinglesToBoard board))

/-- The `/result` endpoint of the RuleBasedSolver master (master.js
lines 180–208): drop the pending assignment, append the solved board
unless a value-equal board is already stored (the
`JSON.stringify`-based duplicate check), and set the blueprint. -/
def rbResultHandler (solvedBoard : Option Board) (s : RBJobView) :
    Nat × RBJobView :=
  match solvedBoard with
  | none => (400, s)
  | some board =>
    let s1 := { s with pending := none }
    let cur2 := if board ∈ s1.completed then s1.completed
                else s1.completed ++ [board]
    (200, { s1 with completed := cur2, blueprint := some board })

/-- A 9×9 board whose first row contains two 5s — the ill-formed clue
set from the claim. -/
def badRowBoard : Board :=
  [5, 5, 0, 0, 0, 0, 0, 0, 0] :: List.replicate 8 (List.replicate 9 0)

/-- A small job state and result for the C3 counterexample. -/
def cbDupState : CBJobState :=
  { jobQueue := [], completedJobs := [], currentBlueprint := [[1, 0], [0, 0]],
    originalSubJobs := [], nextSubJobIndex := none, lastUpdate := 0 }

def cbDupResult : CBResult :=
  { seq := 1, board := [[1], [2]], colIndex := 0, sure := [true, true] }

/-- The 2×2 board of the C8 counterexample, whose column 1 is already
full. -/
def fullColumnBoard : Board := [[1, 2], [0, 1]]

/-- A concrete job state for the C1 counterexample: the submitted board
(which the ColumnBasedSolver master uses as both initial and current
blueprint at job creation) has clue `1` at (0,0), and a completed
result for column 0 reports every cell unsure — exactly what the
solver's deterministic fallback produces (see
`hybridSolve_sure_counterexample`). -/
def cbClueState : CBJobState :=
  { jobQueue := [],
    completedJobs := [{ seq := 3, board := [[2], [2]], colIndex := 0,
                        sure := [false, false] }],
    currentBlueprint := [[1, 0], [0, 0]],
    originalSubJobs := [mkCBSubJob [[1, 0], [0, 0]] 0 1 false],
    nextSubJobIndex := some 3,
    lastUpdate := 0 }

/-- A 2×2 job currently on iteration 2. -/
def ssStaleState : SSJobState :=
  { jobQueue := [], completedJobs := [], jobSubJobCount := 1,
    originalSubJobs := [], currentBlueprint := [[1, 0], [0, 0]],
    initialBlueprint := [[1, 0], [0, 0]], iteration := 2, lastUpdate := 0 }

/-- A worker result for the superseded iteration 1. -/
def ssStaleResult : SSResult :=
  { seq := 1, board := [[1, 2]], blockRow := 0, blockCol := 0,
    sure := [[true, true]], iteration := 1 }

/-- A 2×2 job on iteration 1 with one completed sure result that
agrees with the clue at (0,0). -/
def ssClueState : SSJobState :=
  { jobQueue := [],
    completedJobs := [{ seq := 1, board := [[1, 2]], blockRow := 0,
                        blockCol := 0, sure := [[true, true]],
                        iteration := 1 }],
    jobSubJobCount := 2, originalSubJobs := [],
    currentBlueprint := [[1, 0], [0, 0]],
    initialBlueprint := [[1, 0], [0, 0]],
    iteration := 1, lastUpdate := 0 }

/-! ## Theorems -/

/- ### Elementary lemmas about rows -/

theorem list_get?_set_self {α : Type} (l : List α) (i : Nat) (a w : α)
    (h : l.get? i = some w) : (l.set i a).get? i = some a := by
  have hi : i < l.length := by
    by_contra hle
    rw [List.get?_eq_none.mpr (Nat.le_of_not_lt hle)] at h
    exact Option.noConfusion h
  exact List.get?_set_eq_of_lt a hi

theorem list_set_self {α : Type} (l : List α) (i : Nat) (a : α)
    (h : l.get? i = some a) : l.set i a = l := by
  induction l generalizing i with
  | nil => simp at h
  | cons x xs ih =>
    cases i with
    | zero => simp only [List.get?] at h; cases h; rfl
    | succ j => simp only [List.get?] at h; simp [List.set, ih j h]

theorem list_count_set_lt (l : List Nat) (i : Nat) (a : Nat)
    (h : l.get? i = some 0) (ha : a ≠ 0) :
    (l.set i a).count 0 < l.count 0 := by
  induction l generalizing i with
  | nil => simp at h
  | cons x xs ih =>
    cases i with
    | zero =>
      simp only [List.get?] at h
      cases h
      simp only [List.set, List.count_cons]
      have : (a == 0) = false := by simpa using ha
      simp [this]
    | succ j =>
      simp only [List.get?] at h
      simp only [List.set, List.count_cons]
      exact Nat.add_lt_add_right (ih j h) _

/- ### Lemmas about `entry`, `setCell`, `countZeros` -/

theorem get?_of_lt_length (b : Board) (r : Nat) (h : r < b.length) :
    b.get? r = some (b.getD r []) := by
  rw [List.getD_eq_getElem?_getD, List.get?_eq_getElem?,
    List.getElem?_eq_getElem h]
  rfl

theorem length_setCell (b : Board) (r c v : Nat) :
    (setCell b r c v).length = b.length := by
  unfold setCell; exact List.length_set b _ _

theorem setCell_of_length_le (b : Board) (r c v : Nat) (h : b.length ≤ r) :
    setCell b r c v = b := by
  unfold setCell; exact List.set_eq_of_length_le h

theorem entry_setCell_of_ne (b : Board) (r c v r' c' : Nat)
    (h : r' ≠ r ∨ c' ≠ c) :
    entry (setCell b r c v) r' c' = entry b r' c' := by
  rcases Nat.lt_or_ge r b.length with hr | hr
  · rcases eq_or_ne r' r with rfl | hne
    · rcases h with h | h
      · exact absurd rfl h
      · unfold entry setCell
        rw [List.get?_set_eq_of_lt _ hr, get?_of_lt_length b r' hr]
        simp only [Option.bind_some, Option.some_bind]
        exact List.get?_set_ne _ _ (fun he => h he.symm)
    · unfold entry setCell
      rw [List.get?_set_ne _ _ (fun he => hne he.symm)]
  · rw [setCell_of_length_le b r c v hr]

theorem entry_setCell_self (b : Board) (r c v w : Nat)
    (h : entry b r c = some w) : entry (setCell b r c v) r c = some v := by
  unfold entry at h ⊢
  rcases hrow : b.get? r with _ | row
  · rw [hrow] at h; exact absurd h (by simp)
  · rw [hrow] at h
    simp only [Option.some_bind] at h
    have hr : r < b.length := by
      by_contra hle
      rw [List.get?_eq_none.mpr (Nat.le_of_not_lt hle)] at hrow
      exact Option.noConfusion hrow
    have hgetD : b.getD r [] = row := by
      rw [get?_of_lt_length b r hr] at hrow
      exact Option.some.inj hrow
    unfold setCell
    rw [hgetD, List.get?_set_eq_of_lt _ hr]
    simp only [Option.some_bind]
    exact list_get?_set_self row c v w h

theorem setCell_eq_self (b : Board) (r c v : Nat)
    (h : entry b r c = some v) : setCell b r c v = b := by
  unfold entry at h
  rcases hrow : b.get? r with _ | row
  · rw [hrow] at h; exact absurd h (by simp)
  · rw [hrow] at h
    simp only [Option.some_bind] at h
    have hr : r < b.length := by
      by_contra hle
      rw [List.get?_eq_none.mpr (Nat.le_of_not_lt hle)] at hrow
      exact Option.noConfusion hrow
    have hgetD : b.getD r [] = row := by
      rw [get?_of_lt_length b r hr] at hrow
      exact Option.some.inj hrow
    unfold setCell
    rw [hgetD, list_set_self row c v h, list_set_self b r row hrow]

theorem countZeros_setCell_lt (b : Board) (r c v : Nat)
    (h : entry b r c = some 0) (hv : v ≠ 0) :
    countZeros (setCell b r c v) < countZeros b := by
  unfold entry at h
  induction b generalizing r with
  | nil => simp [List.get?] at h
  | cons row rows ih =>
    cases r with
    | zero =>
      simp only [List.get?, Option.some_bind] at h
      unfold setCell countZeros
      simp only [List.getD_cons_zero, List.set_cons_zero, List.map_cons,
        List.sum_cons]
      exact Nat.add_lt_add_right (list_count_set_lt row c v h hv) _
    | succ j =>
      simp only [List.get?] at h
      have := ih j h
      unfold setCell countZeros at this ⊢
      simp only [List.getD_cons_succ, List.set_cons_succ, List.map_cons,
        List.sum_cons]
      exact Nat.add_lt_add_left this _

theorem entry_setCell_keeps_nonzero (b : Board) (r c v : Nat)
    (h : entry b r c = some 0) :
    ∀ r' c' w, entry b r' c' = some w → w ≠ 0 →
      entry (setCell b r c v) r' c' = some w := by
  intro r' c' w hw hwne
  have hne : r' ≠ r ∨ c' ≠ c := by
    by_contra hcon
    push_neg at hcon
    rw [hcon.1, hcon.2, h] at hw
    exact hwne (Option.some.inj hw).symm
  rw [entry_setCell_of_ne b r c v r' c' hne]; exact hw

theorem sqrtAux_spec (n : Nat) : ∀ k,
    sqrtAux n k * sqrtAux n k ≤ n ∧ sqrtAux n k ≤ k ∧
    (∀ r, r ≤ k → r * r ≤ n → r ≤ sqrtAux n k) := by
  intro k
  induction k with
  | zero => exact ⟨Nat.zero_le n, Nat.le_refl 0, fun r hr _ => hr⟩
  | succ j ih =>
    by_cases h : (j + 1) * (j + 1) ≤ n
    · have heq : sqrtAux n (j + 1) = j + 1 := by
        show (if (j + 1) * (j + 1) ≤ n then j + 1 else sqrtAux n j) = j + 1
        rw [if_pos h]
      rw [heq]
      exact ⟨h, Nat.le_refl _, fun r hr _ => hr⟩
    · have heq : sqrtAux n (j + 1) = sqrtAux n j := by
        show (if (j + 1) * (j + 1) ≤ n then j + 1 else sqrtAux n j) = sqrtAux n j
        rw [if_neg h]
      rw [heq]
      obtain ⟨h1, h2, h3⟩ := ih
      refine ⟨h1, Nat.le_succ_of_le h2, ?_⟩
      intro r hr hrr
      rcases Nat.lt_or_ge r (j + 1) with hlt | hge
      · exact h3 r (Nat.lt_succ_iff.mp hlt) hrr
      · have : r = j + 1 := Nat.le_antisymm hr hge
        subst this
        exact absurd hrr h

theorem jsSqrt_eq_sqrt (n : Nat) : jsSqrt n = Nat.sqrt n := by
  obtain ⟨h1, _, h3⟩ := sqrtAux_spec n n
  exact Nat.le_antisymm (Nat.le_sqrt.mpr h1)
    (h3 (Nat.sqrt n) (Nat.sqrt_le_self n) (Nat.sqrt_le n))

theorem findFactor_spec (n : Nat) : ∀ k, 1 ≤ k →
    (findFactor n k).1 ∣ n ∧ 1 ≤ (findFactor n k).1 ∧ (findFactor n k).1 ≤ k ∧
    (findFactor n k).2 = n / (findFactor n k).1 ∧
    (∀ d, d ∣ n → d ≤ k → d ≤ (findFactor n k).1) := by
  intro k
  induction k with
  | zero => intro h; exact absurd h (by decide)
  | succ i ih =>
    intro _
    have heq : findFactor n (i + 1)
        = if n % (i + 1) = 0 then (i + 1, n / (i + 1)) else findFactor n i := rfl
    by_cases hdvd : n % (i + 1) = 0
    · rw [heq, if_pos hdvd]
      exact ⟨Nat.dvd_of_mod_eq_zero hdvd, Nat.succ_le_succ (Nat.zero_le i),
        Nat.le_refl _, rfl, fun d _ hd => hd⟩
    · rw [heq, if_neg hdvd]
      have hi1 : 1 ≤ i := by
        rcases Nat.eq_zero_or_pos i with rfl | h1
        · exact absurd (Nat.mod_one n) hdvd
        · exact h1
      obtain ⟨h1, h2, h3, h4, h5⟩ := ih hi1
      refine ⟨h1, h2, Nat.le_succ_of_le h3, h4, ?_⟩
      intro d hdn hdk
      rcases Nat.lt_or_ge d (i + 1) with hlt | hge
      · exact h5 d hdn (Nat.lt_succ_iff.mp hlt)
      · exfalso
        have hdi : d = i + 1 := Nat.le_antisymm hdk hge
        subst hdi
        obtain ⟨t, rfl⟩ := hdn
        exact hdvd (Nat.mul_mod_right (i + 1) t)

/-- C9.  Block dimensions: for every `n ≥ 1`, `getBlockDimensions n`
returns `(√n, √n)` when `n` is a perfect square, and otherwise a factor
pair `(r, c)` with `r * c = n`, `r ≤ √n` (i.e. `r * r ≤ n`), and `r`
the largest divisor of `n` below `√n`. -/
theorem getBlockDimensions_spec (n : Nat) (h : 1 ≤ n) :
    (getBlockDimensions n).1 * (getBlockDimensions n).2 = n ∧
    (getBlockDimensions n).1 * (getBlockDimensions n).1 ≤ n ∧
    (∀ d, d ∣ n → d * d ≤ n → d ≤ (getBlockDimensions n).1) ∧
    (Nat.sqrt n * Nat.sqrt n = n →
      getBlockDimensions n = (Nat.sqrt n, Nat.sqrt n)) := by
  have hjs := jsSqrt_eq_sqrt n
  by_cases hsq : Nat.sqrt n * Nat.sqrt n = n
  · have heq : getBlockDimensions n = (Nat.sqrt n, Nat.sqrt n) := by
      unfold getBlockDimensions; rw [hjs, if_pos hsq]
    refine ⟨?_, ?_, ?_, fun _ => heq⟩ <;> rw [heq]
    · exact hsq
    · exact Nat.le_of_eq hsq
    · intro d _ hdd
      exact Nat.le_sqrt.mpr hdd
  · have heq : getBlockDimensions n = findFactor n (Nat.sqrt n) := by
      unfold getBlockDimensions; rw [hjs, if_neg hsq]
    have hs1 : 1 ≤ Nat.sqrt n := Nat.le_sqrt.mpr (by simpa using h)
    obtain ⟨h1, h2, h3, h4, h5⟩ := findFactor_spec n (Nat.sqrt n) hs1
    refine ⟨?_, ?_, ?_, fun hc => absurd hc hsq⟩ <;> rw [heq]
    · rw [h4]; exact Nat.mul_div_cancel' h1
    · calc (findFactor n (Nat.sqrt n)).1 * (findFactor n (Nat.sqrt n)).1
          ≤ Nat.sqrt n * Nat.sqrt n :=
            Nat.mul_le_mul h3 h3
        _ ≤ n := Nat.sqrt_le n
    · intro d hdn hdd
      exact h5 d hdn (Nat.le_sqrt.mpr hdd)

/-- Witness for C9 at the concrete non-square size 12:
`getBlockDimensions 12 = (3, 4)`. -/
theorem getBlockDimensions_spec_witness :
    (getBlockDimensions 12).1 * (getBlockDimensions 12).2 = 12 ∧
    (getBlockDimensions 12).1 * (getBlockDimensions 12).1 ≤ 12 ∧
    (∀ d, d ∣ 12 → d * d ≤ 12 → d ≤ (getBlockDimensions 12).1) ∧
    (Nat.sqrt 12 * Nat.sqrt 12 = 12 →
      getBlockDimensions 12 = (Nat.sqrt 12, Nat.sqrt 12)) :=
  getBlockDimensions_spec 12 (by decide)

theorem candidates_ne_zero (b : Board) (row col v : Nat)
    (h : v ∈ candidates b row col) : v ≠ 0 := by
  unfold candidates at h
  have := List.of_mem_filter h
  have hm := List.mem_filter.mp h |>.1
  rcases List.mem_map.mp hm with ⟨i, _, rfl⟩
  exact Nat.succ_ne_zero i

theorem nsStep_cases (bc : Board × Bool) (p : Nat × Nat) :
    nsStep bc p = bc ∨
    ∃ v, entry bc.1 p.1 p.2 = some 0 ∧ v ≠ 0 ∧
      nsStep bc p = (setCell bc.1 p.1 p.2 v, true) := by
  unfold nsStep
  by_cases h : entry bc.1 p.1 p.2 = some 0
  · rw [if_pos h]
    rcases hc : candidates bc.1 p.1 p.2 with _ | ⟨v, _ | ⟨w, rest⟩⟩
    · exact Or.inl rfl
    · refine Or.inr ⟨v, h, ?_, rfl⟩
      exact candidates_ne_zero bc.1 p.1 p.2 v (hc ▸ List.mem_singleton_self v)
    · exact Or.inl rfl
  · rw [if_neg h]; exact Or.inl rfl

theorem nsFold_spec (ps : List (Nat × Nat)) : ∀ (b : Board) (ch : Bool),
    countZeros (ps.foldl nsStep (b, ch)).1 ≤ countZeros b ∧
    ((ps.foldl nsStep (b, ch)).2 = false →
      (ps.foldl nsStep (b, ch)).1 = b ∧ ch = false) ∧
    (ch = false → (ps.foldl nsStep (b, ch)).2 = true →
      countZeros (ps.foldl nsStep (b, ch)).1 < countZeros b) ∧
    (ps.foldl nsStep (b, ch)).1.length = b.length ∧
    (∀ i j w, entry b i j = some w → w ≠ 0 →
      entry (ps.foldl nsStep (b, ch)).1 i j = some w) := by
  induction ps with
  | nil =>
    intro b ch
    refine ⟨Nat.le_refl _, ?_, ?_, rfl, fun i j w hw _ => hw⟩
    · intro h; exact ⟨rfl, h⟩
    · intro hch htr
      rw [List.foldl_nil] at htr
      rw [hch] at htr
      cases htr
  | cons p rest ih =>
    intro b ch
    rcases nsStep_cases (b, ch) p with heq | ⟨v, hz, hv, heq⟩
    · simp only [List.foldl_cons, heq]
      exact ih b ch
    · simp only [List.foldl_cons, heq]
      obtain ⟨ih1, ih2, _, ih4, ih5⟩ := ih (setCell b p.1 p.2 v) true
      have hlt : countZeros (setCell b p.1 p.2 v) < countZeros b :=
        countZeros_setCell_lt b p.1 p.2 v hz hv
      refine ⟨Nat.le_of_lt (Nat.lt_of_le_of_lt ih1 hlt), ?_, ?_, ?_, ?_⟩
      · intro hfalse
        exact absurd (ih2 hfalse).2 (by decide)
      · intro _ _
        exact Nat.lt_of_le_of_lt ih1 hlt
      · rw [ih4, length_setCell]
      · intro i j w hw hwne
        exact ih5 i j w (entry_setCell_keeps_nonzero b p.1 p.2 v hz i j w hw hwne) hwne

theorem nsPass_keeps_nonzero (b : Board) (i j w : Nat)
    (hw : entry b i j = some w) (hwne : w ≠ 0) :
    entry (nsPass b).1 i j = some w :=
  (nsFold_spec (allPositions b.length) b false).2.2.2.2 i j w hw hwne

theorem nsLoop_succ (fuel : Nat) (b : Board) :
    nsLoop (fuel + 1) b
      = if (nsPass b).2 then nsLoop fuel (nsPass b).1 else (nsPass b).1 := rfl

theorem nsLoop_keeps_nonzero : ∀ (fuel : Nat) (b : Board) (i j w : Nat),
    entry b i j = some w → w ≠ 0 → entry (nsLoop fuel b) i j = some w := by
  intro fuel
  induction fuel with
  | zero => intro b i j w hw _; exact hw
  | succ f ih =>
    intro b i j w hw hwne
    rw [nsLoop_succ]
    have hkeep : entry (nsPass b).1 i j = some w :=
      nsPass_keeps_nonzero b i j w hw hwne
    cases h2 : (nsPass b).2 with
    | false => rw [if_neg (by simp)]; exact hkeep
    | true => rw [if_pos rfl]; exact ih (nsPass b).1 i j w hkeep hwne

theorem keepsNonzero_refl (b : Board) : keepsNonzero b b :=
  fun _ _ _ hw _ => hw

theorem keepsNonzero_trans {a b c : Board}
    (h1 : keepsNonzero a b) (h2 : keepsNonzero b c) : keepsNonzero a c :=
  fun r col w hw hwne => h2 r col w (h1 r col w hw hwne) hwne

theorem keepsNonzero_setCell (b : Board) (r c v : Nat)
    (h : entry b r c = some 0) : keepsNonzero b (setCell b r c v) :=
  fun r' c' w hw hwne => entry_setCell_keeps_nonzero b r c v h r' c' w hw hwne

theorem mem_allPositions (n : Nat) (p : Nat × Nat) :
    p ∈ allPositions n ↔ p.1 < n ∧ p.2 < n := by
  unfold allPositions
  constructor
  · intro h
    rcases List.mem_flatMap.mp h with ⟨r, hr, hmem⟩
    rcases List.mem_map.mp hmem with ⟨c, hc, rfl⟩
    exact ⟨List.mem_range.mp hr, List.mem_range.mp hc⟩
  · intro ⟨h1, h2⟩
    exact List.mem_flatMap.mpr ⟨p.1, List.mem_range.mpr h1,
      List.mem_map.mpr ⟨p.2, List.mem_range.mpr h2, rfl⟩⟩

theorem findEmptyPosition_none (b : Board)
    (h : findEmptyPosition b = none) : noZeroCells b := by
  intro r c hr hc hzero
  have hmem : (r, c) ∈ allPositions b.length :=
    (mem_allPositions b.length (r, c)).mpr ⟨hr, hc⟩
  have := List.find?_eq_none.mp h (r, c) hmem
  simp at this
  exact this hzero

theorem findEmptyPosition_some (b : Board) (row col : Nat)
    (h : findEmptyPosition b = some (row, col)) : entry b row col = some 0 := by
  have := List.find?_some h
  simpa using this

theorem setCell_setCell (b : Board) (r c v w : Nat) :
    setCell (setCell b r c v) r c w = setCell b r c w := by
  rcases Nat.lt_or_ge r b.length with hr | hr
  · unfold setCell
    have hget : (b.set r ((b.getD r []).set c v)).getD r []
        = (b.getD r []).set c v := by
      have hl : r < (b.set r ((b.getD r []).set c v)).length := by
        rw [List.length_set]; exact hr
      have h2 := get?_of_lt_length _ r hl
      rw [List.get?_set_eq_of_lt _ hr] at h2
      exact (Option.some.inj h2).symm
    rw [hget, List.set_set, List.set_set]
  · rw [setCell_of_length_le b r c v hr, setCell_of_length_le b r c w hr]

theorem btsNums_cons (next : Board → Bool × Board) (b : Board)
    (row col num : Nat) (rest : List Nat) :
    btsNums next b row col (num :: rest)
      = if isValid b row col num then
          match next (setCell b row col num) with
          | (true, b2) => (true, b2)
          | (false, b2) => btsNums next (setCell b2 row col 0) row col rest
        else btsNums next b row col rest := rfl

theorem btsNums_spec (next : Board → Bool × Board)
    (hnext : ∀ b0, ((next b0).1 = false → (next b0).2 = b0) ∧
      ((next b0).1 = true → noZeroCells (next b0).2 ∧ keepsNonzero b0 (next b0).2))
    (row col : Nat) :
    ∀ (nums : List Nat) (b : Board), entry b row col = some 0 →
      ((btsNums next b row col nums).1 = false →
        (btsNums next b row col nums).2 = b) ∧
      ((btsNums next b row col nums).1 = true →
        noZeroCells (btsNums next b row col nums).2 ∧
        keepsNonzero b (btsNums next b row col nums).2) := by
  intro nums
  induction nums with
  | nil =>
    intro b _
    refine ⟨fun _ => rfl, fun h => ?_⟩
    simp [btsNums] at h
  | cons num rest ih =>
    intro b hz
    by_cases hv : isValid b row col num
    · rcases hres : next (setCell b row col num) with ⟨flag, b2⟩
      cases flag with
      | true =>
        have heq : btsNums next b row col (num :: rest) = (true, b2) := by
          rw [btsNums_cons, if_pos hv, hres]
        rw [heq]
        refine ⟨fun h => by simp at h, fun _ => ?_⟩
        have hnz := (hnext (setCell b row col num)).2
        rw [hres] at hnz
        have hnz2 := hnz rfl
        exact ⟨hnz2.1,
          keepsNonzero_trans (keepsNonzero_setCell b row col num hz) hnz2.2⟩
      | false =>
        have hb2 : b2 = setCell b row col num := by
          have hfb := (hnext (setCell b row col num)).1
          rw [hres] at hfb
          exact hfb rfl
        have hrestore : setCell b2 row col 0 = b := by
          rw [hb2, setCell_setCell]
          exact setCell_eq_self b row col 0 hz
        have heq : btsNums next b row col (num :: rest)
            = btsNums next (setCell b2 row col 0) row col rest := by
          rw [btsNums_cons, if_pos hv, hres]
        rw [heq, hrestore]
        exact ih b hz
    · have heq : btsNums next b row col (num :: rest)
          = btsNums next b row col rest := by
        rw [btsNums_cons, if_neg hv]
      rw [heq]
      exact ih b hz

theorem bts_spec : ∀ (fuel : Nat) (b : Board),
    ((bts fuel b).1 = false → (bts fuel b).2 = b) ∧
    ((bts fuel b).1 = true →
      noZeroCells (bts fuel b).2 ∧ keepsNonzero b (bts fuel b).2) := by
  intro fuel
  induction fuel with
  | zero =>
    intro b
    refine ⟨fun _ => rfl, fun h => ?_⟩
    simp [bts] at h
  | succ f ih =>
    intro b
    rcases hfind : findEmptyPosition b with _ | ⟨row, col⟩
    · have heq : bts (f + 1) b = (true, b) := by
        unfold bts; rw [hfind]
      rw [heq]
      exact ⟨fun h => by simp at h,
        fun _ => ⟨findEmptyPosition_none b hfind, keepsNonzero_refl b⟩⟩
    · have heq : bts (f + 1) b
          = btsNums (bts f) b row col ((List.range b.length).map (· + 1)) := by
        unfold bts; rw [hfind]
      rw [heq]
      exact btsNums_spec (bts f) ih row col _ b (findEmptyPosition_some b row col hfind)

/-- C10.  Backtracking solver postcondition and failure atomicity: on
`false` the board is returned exactly as it was on entry (every cell the
solver wrote was reset to 0); on `true` the board has no empty in-range
cell and agrees with the input on every cell that was non-zero on
entry. -/
theorem backtrackingSolver_spec (b : Board) :
    ((backtrackingSolver b).1 = false → (backtrackingSolver b).2 = b) ∧
    ((backtrackingSolver b).1 = true →
      noZeroCells (backtrackingSolver b).2 ∧
      keepsNonzero b (backtrackingSolver b).2) :=
  bts_spec (countZeros b + 1) b

/-- Witness for C10 on the unsolvable concrete board `[[2,2],[0,0]]`
(the solver returns `false` and restores the board) and on the solvable
`[[1,0],[0,0]]` (the solver returns `true`, fills every cell and keeps
the clue `1`). -/
theorem backtrackingSolver_spec_witness :
    (backtrackingSolver [[2, 2], [0, 0]]).2 = [[2, 2], [0, 0]] ∧
    entry (backtrackingSolver [[1, 0], [0, 0]]).2 0 0 = some 1 :=
  ⟨(backtrackingSolver_spec [[2, 2], [0, 0]]).1 (by decide),
   ((backtrackingSolver_spec [[1, 0], [0, 0]]).2 (by decide)).2 0 0 1
     (by decide) (by decide)⟩

/- ### Lemmas for claim C5 -/

theorem foldl_invariant {α β : Type} (g : α → β → α) (P : α → Prop) :
    ∀ (xs : List β) (a : α), (∀ a2 x, x ∈ xs → P a2 → P (g a2 x)) → P a →
      P (xs.foldl g a) := by
  intro xs
  induction xs with
  | nil => intro a _ h; exact h
  | cons y ys ih =>
    intro a hstep h
    exact ih (g a y) (fun a2 x hx => hstep a2 x (List.mem_cons_of_mem y hx))
      (hstep a y (List.mem_cons_self y ys) h)

theorem foldl_establish {α β : Type} [DecidableEq β] (g : α → β → α)
    (P Q : α → Prop) (x0 : β)
    (hppres : ∀ a x, P a → P (g a x))
    (hqpres : ∀ a x, Q a → Q (g a x))
    (hest : ∀ a, Q a → P (g a x0)) :
    ∀ (xs : List β) (a : α), x0 ∈ xs → Q a → P (xs.foldl g a) := by
  intro xs
  induction xs with
  | nil => intro a hmem _; exact absurd hmem (List.not_mem_nil x0)
  | cons y ys ih =>
    intro a hmem hq
    by_cases hy : y = x0
    · subst hy
      exact foldl_invariant g P ys (g a y) (fun a2 x _ => hppres a2 x) (hest a hq)
    · have hmem2 : x0 ∈ ys := by
        rcases List.mem_cons.mp hmem with h | h
        · exact absurd h.symm hy
        · exact h
      exact ih (g a y) hmem2 (hqpres a y hq)

/-- C6 (amended).  The RuleBasedSolver master rejects an ill-formed
clue set: whenever `isValidGrid` fails, `/solve` answers 400 and
neither queues a job nor stores a blueprint. -/
theorem rbSolveHandler_rejects_invalid (board : Board)
    (h : isValidGrid board = false) :
    rbSolveHandler (some board) = (400, none) := by
  simp [rbSolveHandler, h]

/-- Witness for C6 (amended) on the two-5s board. -/
theorem rbSolveHandler_rejects_invalid_witness :
    isValidGrid badRowBoard = false ∧
    rbSolveHandler (some badRowBoard) = (400, none) :=
  ⟨by decide, rbSolveHandler_rejects_invalid badRowBoard (by decide)⟩

/-- C6 counterexample: the ColumnBasedSolver master accepts the very
same ill-formed clue set (it validates only array-ness), answers 200
and enqueues one sub-job per column — refuting the claim that every
master rejects rule-violating boards with 400 and creates no job. -/
theorem cbSolveHandler_accepts_counterexample :
    isValidGrid badRowBoard = false ∧
    (cbSolveHandler (some badRowBoard) 0 3).1 = 200 ∧
    ((cbSolveHandler (some badRowBoard) 0 3).2.map fun st => st.jobQueue.length)
      = some 9 := by
  decide

/- ### Claim C3 -/

/-- C3 (amended).  The RuleBasedSolver master's `/result` endpoint is
idempotent: submitting the same solved board twice leaves the per-job
state (pending assignment, completed list, blueprint) identical to
submitting it once — the duplicate is dropped by the value-equality
check. -/
theorem rbResultHandler_duplicate_dropped (board : Board) (s : RBJobView) :
    rbResultHandler (some board) (rbResultHandler (some board) s).2
      = rbResultHandler (some board) s := by
  unfold rbResultHandler
  by_cases h : board ∈ s.completed
  · simp [h]
  · simp [h]

/-- C3 counterexample: the ColumnBasedSolver master's `/result`
endpoint appends unconditionally, so submitting the same result twice
(at the same instant) leaves a different state than submitting it once
— the completion list doubles, which also inflates the completion
count used by `checkAndCombineResults`. -/
theorem cbResultHandler_duplicate_counterexample :
    (cbResultHandler (some cbDupResult)
        (cbResultHandler (some cbDupResult) cbDupState 5).2 5).2
      ≠ (cbResultHandler (some cbDupResult) cbDupState 5).2 := by
  decide

/- ### Claim C8 -/

theorem ssSplitStep_cases (board : Board) (iter2 : Nat) (isReq : Bool)
    (acc : List SSSubJob × Nat) (p : Nat × Nat) :
    ((extractBlock board p.1 p.2).all
        (fun row => row.all fun cell => decide (cell ≠ 0)) = true ∧
      ssSplitStep board iter2 isReq acc p = acc) ∨
    ((extractBlock board p.1 p.2).all
        (fun row => row.all fun cell => decide (cell ≠ 0)) = false ∧
      ssSplitStep board iter2 isReq acc p
        = (acc.1 ++ [mkSSSubJob board iter2 isReq p acc.2], acc.2 + 1)) := by
  have hzeta : ssSplitStep board iter2 isReq acc p
      = if (extractBlock board p.1 p.2).all
          (fun row => row.all fun cell => decide (cell ≠ 0))
        then acc
        else (acc.1 ++ [mkSSSubJob board iter2 isReq p acc.2], acc.2 + 1) := rfl
  cases hfull : (extractBlock board p.1 p.2).all
      (fun row => row.all fun cell => decide (cell ≠ 0)) with
  | true => exact Or.inl ⟨rfl, by rw [hzeta, hfull, if_pos rfl]⟩
  | false => exact Or.inr ⟨rfl, by rw [hzeta, hfull]; simp⟩

theorem ssSplitFold_spec (board : Board) (iter2 : Nat) (isReq : Bool) :
    ∀ (ps : List (Nat × Nat)) (acc : List SSSubJob × Nat),
    (∀ sj ∈ (ps.foldl (ssSplitStep board iter2 isReq) acc).1,
      sj ∈ acc.1 ∨
      (extractBlock board sj.blockRow sj.blockCol).all
        (fun row => row.all fun cell => decide (cell ≠ 0)) = false) ∧
    (∀ x ∈ acc.1, x ∈ (ps.foldl (ssSplitStep board iter2 isReq) acc).1) ∧
    (∀ p ∈ ps,
      (extractBlock board p.1 p.2).all
        (fun row => row.all fun cell => decide (cell ≠ 0)) = false →
      ∃ sj ∈ (ps.foldl (ssSplitStep board iter2 isReq) acc).1,
        sj.blockRow = p.1 ∧ sj.blockCol = p.2) := by
  intro ps
  induction ps with
  | nil =>
    intro acc
    exact ⟨fun sj h => Or.inl h, fun x h => h,
      fun p hmem => absurd hmem (List.not_mem_nil p)⟩
  | cons p0 rest ih =>
    intro acc
    simp only [List.foldl_cons]
    rcases ssSplitStep_cases board iter2 isReq acc p0 with ⟨hfull, heq⟩ |
      ⟨hfull, heq⟩
    · rw [heq]
      obtain ⟨ih1, ih2, ih3⟩ := ih acc
      refine ⟨ih1, ih2, ?_⟩
      intro p hmem hnf
      rcases List.mem_cons.mp hmem with rfl | hmem2
      · rw [hnf] at hfull; cases hfull
      · exact ih3 p hmem2 hnf
    · rw [heq]
      obtain ⟨ih1, ih2, ih3⟩ :=
        ih (acc.1 ++ [mkSSSubJob board iter2 isReq p0 acc.2], acc.2 + 1)
      refine ⟨?_, ?_, ?_⟩
      · intro sj hsj
        rcases ih1 sj hsj with hin | hnf
        · rcases List.mem_append.mp hin with hin2 | hin2
          · exact Or.inl hin2
          · have hsjeq : sj = mkSSSubJob board iter2 isReq p0 acc.2 :=
              List.mem_singleton.mp hin2
            subst hsjeq
            exact Or.inr hfull
        · exact Or.inr hnf
      · intro x hx
        exact ih2 x (List.mem_append_left _ hx)
      · intro p hmem hnf
        rcases List.mem_cons.mp hmem with rfl | hmem2
        · refine ⟨mkSSSubJob board iter2 isReq p acc.2, ?_, rfl, rfl⟩
          exact ih2 _ (List.mem_append_right _ (List.mem_singleton_self _))
        · exact ih3 p hmem2 hnf

/-- C8 (amended).  Partitioner skipping holds for the BLOCK strategy
only: the StochasticSearch partitioner creates a sub-job exactly for
the blocks containing a zero; the ColumnBasedSolver (COLUMN) partitioner
creates one sub-job per column regardless of whether the column is
already full. -/
theorem partitioner_skips_full_blocks (s : SSJobState) (board : Board)
    (gridSize : Nat) (isReq : Bool) (cs : CBJobState) (cboard : Board)
    (cgrid : Nat) (creq : Bool) :
    (∀ sj ∈ (ssSplitAndQueueJob s board gridSize isReq).2,
      (extractBlock board sj.blockRow sj.blockCol).all
        (fun row => row.all fun cell => decide (cell ≠ 0)) = false) ∧
    (∀ p ∈ blockPositions (gridSize / (getBlockDimensions gridSize).1)
        (gridSize / (getBlockDimensions gridSize).2),
      (extractBlock board p.1 p.2).all
        (fun row => row.all fun cell => decide (cell ≠ 0)) = false →
      ∃ sj ∈ (ssSplitAndQueueJob s board gridSize isReq).2,
        sj.blockRow = p.1 ∧ sj.blockCol = p.2) ∧
    (cbSplitAndQueueJob cs cboard cgrid creq).2.map (fun j => j.colIndex)
      = List.range cgrid := by
  have hsub : (ssSplitAndQueueJob s board gridSize isReq).2
      = ((blockPositions (gridSize / (getBlockDimensions gridSize).1)
          (gridSize / (getBlockDimensions gridSize).2)).foldl
        (ssSplitStep board (if isReq then s.iteration + 1 else 1) isReq)
        ([], 1)).1 := rfl
  obtain ⟨h1, _, h3⟩ := ssSplitFold_spec board
    (if isReq then s.iteration + 1 else 1) isReq
    (blockPositions (gridSize / (getBlockDimensions gridSize).1)
      (gridSize / (getBlockDimensions gridSize).2)) ([], 1)
  refine ⟨?_, ?_, ?_⟩
  · intro sj hsj
    rw [hsub] at hsj
    rcases h1 sj hsj with hin | hnf
    · exact absurd hin (List.not_mem_nil sj)
    · exact hnf
  · intro p hmem hnf
    rw [hsub]
    exact h3 p hmem hnf
  · show ((List.range cgrid).map fun col =>
      mkCBSubJob cboard col (col + 1) creq).map (fun j => j.colIndex)
        = List.range cgrid
    rw [List.map_map]
    have hcomp : ((fun j => j.colIndex) ∘ fun col =>
        mkCBSubJob cboard col (col + 1) creq) = id := by
      funext col
      rfl
    rw [hcomp, List.map_id]

/-- Witness for C8 (amended): a 2×2 board whose two 1×2 blocks are both
full produces no StochasticSearch sub-jobs, while the ColumnBasedSolver
partitioner still creates sub-jobs for the columns `[0, 1]` of a board
whose column 1 is full. -/
theorem partitioner_skips_full_blocks_witness :
    (∀ sj ∈ (ssSplitAndQueueJob
        { jobQueue := [], completedJobs := [], jobSubJobCount := 0,
          originalSubJobs := [], currentBlueprint := [[1, 1], [1, 1]],
          initialBlueprint := [[1, 1], [1, 1]], iteration := 1, lastUpdate := 0 }
        [[1, 1], [1, 1]] 2 false).2,
      (extractBlock [[1, 1], [1, 1]] sj.blockRow sj.blockCol).all
        (fun row => row.all fun cell => decide (cell ≠ 0)) = false) ∧
    (∀ p ∈ blockPositions (2 / (getBlockDimensions 2).1)
        (2 / (getBlockDimensions 2).2),
      (extractBlock [[1, 1], [1, 1]] p.1 p.2).all
        (fun row => row.all fun cell => decide (cell ≠ 0)) = false →
      ∃ sj ∈ (ssSplitAndQueueJob
        { jobQueue := [], completedJobs := [], jobSubJobCount := 0,
          originalSubJobs := [], currentBlueprint := [[1, 1], [1, 1]],
          initialBlueprint := [[1, 1], [1, 1]], iteration := 1, lastUpdate := 0 }
        [[1, 1], [1, 1]] 2 false).2,
        sj.blockRow = p.1 ∧ sj.blockCol = p.2) ∧
    (cbSplitAndQueueJob cbDupState [[1, 2], [0, 1]] 2 false).2.map
      (fun j => j.colIndex) = List.range 2 :=
  partitioner_skips_full_blocks _ [[1, 1], [1, 1]] 2 false cbDupState
    [[1, 2], [0, 1]] 2 false

/-- C8 counterexample: the ColumnBasedSolver partitioner creates a
sub-job for column 1 of `fullColumnBoard` even though that column
contains no zero — refuting the claim that sub-jobs are created only
for partitions with at least one empty cell. -/
theorem cbSplit_no_skip_counterexample :
    ¬ (∀ sj ∈ (cbSplitAndQueueJob cbDupState fullColumnBoard 2 false).2,
      ((List.range 2).any fun row => val fullColumnBoard row sj.colIndex == 0)
        = true) := by
  decide

/- ### Claim C4 (and the C1 counterexample) -/

/-- C1 counterexample: one aggregation step
(`updatePartialBoardFromSure` of the ColumnBasedSolver master) clears
the original clue at (0,0) from `currentBlueprint`, because every cell
of a completed column that is not marked sure is overwritten with 0 —
refuting clue preservation as a cross-variant invariant. -/
theorem cbUpdatePartial_clue_counterexample :
    val cbClueState.currentBlueprint 0 0 = 1 ∧
    val (cbUpdatePartialBoardFromSure cbClueState).currentBlueprint 0 0 = 0 := by
  decide

/- ### Claim C2 -/

/-- The rebuilt blueprint of the StochasticSearch master's
`updatePartialBoardFromSure` depends on the job state only through
`initialBlueprint` and the current-iteration result list. -/
theorem ssUpdatePartial_congr (s t : SSJobState)
    (hinit : s.initialBlueprint = t.initialBlueprint)
    (hres : currentResults s = currentResults t) :
    (ssUpdatePartialBoardFromSure s).currentBlueprint
      = (ssUpdatePartialBoardFromSure t).currentBlueprint := by
  show applyNakedSinglesSS _ = applyNakedSinglesSS _
  rw [hinit, hres]

/-- `combineSections` depends on the job state only through
`currentBlueprint` and the current-iteration result list. -/
theorem ssCombineSections_congr (s t : SSJobState)
    (hbp : s.currentBlueprint = t.currentBlueprint)
    (hres : currentResults s = currentResults t) :
    ssCombineSections s = ssCombineSections t := by
  unfold ssCombineSections
  rw [hbp, hres]

/-- C2 (amended).  Iteration *filtering* holds, but a stale result is
not dropped on arrival: the `/result` endpoint of the StochasticSearch
master accepts it with 200, appends it (iteration normalised by
`|| 1`) to `completedJobs` and refreshes the activity timestamp; only
afterwards do the per-iteration filters exclude it, so the
current-iteration result list, the rebuilt blueprint and
`combineSections` are exactly those of a state that never received
it. -/
theorem ssResultHandler_stale_isolated (p : SSResult) (s : SSJobState)
    (now : Nat)
    (h : (if p.iteration = 0 then 1 else p.iteration) ≠ currentIterationOf s) :
    (ssResultHandler (some p) s now).1 = 200 ∧
    (ssResultHandler (some p) s now).2.completedJobs
      = s.completedJobs
        ++ [{ p with iteration := if p.iteration = 0 then 1 else p.iteration }] ∧
    (ssResultHandler (some p) s now).2.lastUpdate = now ∧
    currentResults (ssResultHandler (some p) s now).2 = currentResults s ∧
    (ssResultHandler (some p) s now).2.currentBlueprint
      = (ssUpdatePartialBoardFromSure s).currentBlueprint ∧
    ssCombineSections (ssResultHandler (some p) s now).2
      = ssCombineSections (ssUpdatePartialBoardFromSure s) := by
  have hb : ((if p.iteration = 0 then 1 else p.iteration : Nat)
      == currentIterationOf s) = false := beq_eq_false_iff_ne.mpr h
  have hcr1 : currentResults
      { s with
        completedJobs := s.completedJobs
          ++ [{ p with iteration := if p.iteration = 0 then 1 else p.iteration }],
        lastUpdate := now }
      = currentResults s := by
    show List.filter (fun j => j.iteration == currentIterationOf s)
        (s.completedJobs
          ++ [{ p with iteration := if p.iteration = 0 then 1 else p.iteration }])
      = List.filter (fun j => j.iteration == currentIterationOf s) s.completedJobs
    rw [List.filter_append]
    have hone : List.filter (fun j => j.iteration == currentIterationOf s)
        [{ p with iteration := if p.iteration = 0 then 1 else p.iteration }]
        = ([] : List SSResult) := by
      simp [hb]
    rw [hone, List.append_nil]
  exact ⟨rfl, rfl, rfl, hcr1, ssUpdatePartial_congr _ s rfl hcr1,
    ssCombineSections_congr _ (ssUpdatePartialBoardFromSure s)
      (ssUpdatePartial_congr _ s rfl hcr1) hcr1⟩

/-- Witness for C2 (amended) at `ssStaleState`/`ssStaleResult`. -/
theorem ssResultHandler_stale_isolated_witness :
    ((if ssStaleResult.iteration = 0 then 1 else ssStaleResult.iteration)
      ≠ currentIterationOf ssStaleState) ∧
    ((ssResultHandler (some ssStaleResult) ssStaleState 7).1 = 200 ∧
     (ssResultHandler (some ssStaleResult) ssStaleState 7).2.completedJobs
       = ssStaleState.completedJobs
         ++ [{ ssStaleResult with iteration :=
               if ssStaleResult.iteration = 0 then 1
               else ssStaleResult.iteration }] ∧
     (ssResultHandler (some ssStaleResult) ssStaleState 7).2.lastUpdate = 7 ∧
     currentResults (ssResultHandler (some ssStaleResult) ssStaleState 7).2
       = currentResults ssStaleState ∧
     (ssResultHandler (some ssStaleResult) ssStaleState 7).2.currentBlueprint
       = (ssUpdatePartialBoardFromSure ssStaleState).currentBlueprint ∧
     ssCombineSections (ssResultHandler (some ssStaleResult) ssStaleState 7).2
       = ssCombineSections (ssUpdatePartialBoardFromSure ssStaleState)) :=
  ⟨by decide,
    ssResultHandler_stale_isolated ssStaleResult ssStaleState 7 (by decide)⟩

/-- C2 counterexample: a result whose iteration (1) differs from the
job's current iteration (2) is *not* dropped on arrival — the handler
stores it, so the job's state changes. -/
theorem ssResult_stale_counterexample :
    ssStaleResult.iteration ≠ currentIterationOf ssStaleState ∧
    (ssResultHandler (some ssStaleResult) ssStaleState 7).2.completedJobs
      ≠ ssStaleState.completedJobs := by
  decide

/- ### Claim C1 -/

/-- Rows other than `i` are untouched by row `i` of the clue-restore
loop of `updatePartialBoardFromSure` (StochasticSearch master). -/
theorem ssInitRow_entry_other (blueprint : Board) (n : Nat) (ub : Board)
    (i i2 j2 : Nat) (hne : i2 ≠ i) :
    entry (ssInitStepOuter blueprint n ub i) i2 j2 = entry ub i2 j2 := by
  apply foldl_invariant (ssInitStepInner blueprint i)
    (fun b => entry b i2 j2 = entry ub i2 j2)
  · intro a x _ hP
    unfold ssInitStepInner
    split
    · rw [entry_setCell_of_ne a i x _ i2 j2 (Or.inl hne)]
      exact hP
    · exact hP
  · rfl

/-- Row `i` of the clue-restore loop writes the clue at `(i, j)`
(provided the cell exists in the accumulator). -/
theorem ssInitRow_entry_clue (blueprint : Board) (n : Nat) (ub : Board)
    (i j : Nat) (hj : j < n) (hz : val blueprint i j ≠ 0)
    (hsome : ∃ w, entry ub i j = some w) :
    entry (ssInitStepOuter blueprint n ub i) i j
      = some (val blueprint i j) := by
  apply foldl_establish (ssInitStepInner blueprint i)
    (fun b => entry b i j = some (val blueprint i j))
    (fun b => ∃ w, entry b i j = some w) j
  · intro a x hP
    unfold ssInitStepInner
    split
    · by_cases hx : x = j
      · subst hx
        exact entry_setCell_self a i x _ _ hP
      · rw [entry_setCell_of_ne a i x _ i j (Or.inr fun he => hx he.symm)]
        exact hP
    · exact hP
  · rintro a x ⟨w, hw⟩
    unfold ssInitStepInner
    split
    · by_cases hx : x = j
      · subst hx
        exact ⟨_, entry_setCell_self a i x _ w hw⟩
      · rw [entry_setCell_of_ne a i x _ i j (Or.inr fun he => hx he.symm)]
        exact ⟨w, hw⟩
    · exact ⟨w, hw⟩
  · rintro a ⟨w, hw⟩
    unfold ssInitStepInner
    rw [if_pos (decide_eq_true hz)]
    exact entry_setCell_self a i j _ w hw
  · exact List.mem_range.mpr hj
  · exact hsome

/-- After the full clue-restore double loop, every in-range clue cell
of the initial blueprint holds its clue. -/
theorem ssWithInit_entry_clue (blueprint : Board) (n : Nat)
    (i j : Nat) (hi : i < n) (hj : j < n)
    (hz : val blueprint i j ≠ 0) :
    entry ((List.range n).foldl (ssInitStepOuter blueprint n)
        (List.replicate n (List.replicate n 0))) i j
      = some (val blueprint i j) := by
  apply foldl_establish (ssInitStepOuter blueprint n)
    (fun b => entry b i j = some (val blueprint i j))
    (fun b => ∃ w, entry b i j = some w) i
  · intro a x hP
    by_cases hx : x = i
    · subst hx
      exact ssInitRow_entry_clue blueprint n a x j hj hz ⟨_, hP⟩
    · rw [ssInitRow_entry_other blueprint n a x i j fun he => hx he.symm]
      exact hP
  · rintro a x ⟨w, hw⟩
    by_cases hx : x = i
    · subst hx
      exact ⟨_, ssInitRow_entry_clue blueprint n a x j hj hz ⟨w, hw⟩⟩
    · rw [ssInitRow_entry_other blueprint n a x i j fun he => hx he.symm]
      exact ⟨w, hw⟩
  · rintro a ⟨w, hw⟩
    exact ssInitRow_entry_clue blueprint n a i j hj hz ⟨w, hw⟩
  · exact List.mem_range.mpr hi
  · refine ⟨0, ?_⟩
    unfold entry
    simp [List.get?_eq_getElem?, List.getElem?_replicate, hi, hj]

/-- The sure-cell overlay preserves a clue cell, provided every sure
result cell landing on a clue position carries the clue's value. -/
theorem ssOverlay_preserves (blueprint : Board) (br bc : Nat)
    (rs : List SSResult) (i j : Nat)
    (H : ∀ r ∈ rs, ∀ i2 < br, ∀ j2 < bc,
      bval r.sure i2 j2 = true →
      val blueprint (r.blockRow * br + i2) (r.blockCol * bc + j2) ≠ 0 →
      val r.board i2 j2
        = val blueprint (r.blockRow * br + i2) (r.blockCol * bc + j2))
    (hz : val blueprint i j ≠ 0) (ub : Board)
    (hub : entry ub i j = some (val blueprint i j)) :
    entry (rs.foldl (ssOverlayStep br bc) ub) i j
      = some (val blueprint i j) := by
  apply foldl_invariant (ssOverlayStep br bc)
    (fun b => entry b i j = some (val blueprint i j)) rs ub ?_ hub
  intro a r hr hP
  unfold ssOverlayStep
  apply foldl_invariant (ssOverlayInner r br bc)
    (fun b => entry b i j = some (val blueprint i j))
  · intro a2 i2 hi2 hP2
    unfold ssOverlayInner
    apply foldl_invariant _
      (fun b => entry b i j = some (val blueprint i j))
    · intro a3 j2 hj2 hP3
      split
      next hsure =>
        by_cases hpos : r.blockRow * br + i2 = i ∧ r.blockCol * bc + j2 = j
        · obtain ⟨h1, h2⟩ := hpos
          have hz2 : val blueprint (r.blockRow * br + i2)
              (r.blockCol * bc + j2) ≠ 0 := by
            rw [h1, h2]; exact hz
          have hvb := H r hr i2 (List.mem_range.mp hi2)
            j2 (List.mem_range.mp hj2) hsure hz2
          rw [h1, h2] at hvb
          rw [h1, h2, hvb]
          exact entry_setCell_self a3 i j _ _ hP3
        · rcases not_and_or.mp hpos with hne | hne
          · rw [entry_setCell_of_ne a3 _ _ _ i j
              (Or.inl fun he => hne he.symm)]
            exact hP3
          · rw [entry_setCell_of_ne a3 _ _ _ i j
              (Or.inr fun he => hne he.symm)]
            exact hP3
      next hsure => exact hP3
    · exact hP2
  · exact hP

/-- C1 (amended).  Clue preservation in the StochasticSearch master:
`updatePartialBoardFromSure` rebuilds `currentBlueprint` from
`initialBlueprint`, so every in-range clue keeps its value, provided
each current-iteration sure result cell at a clue position carries the
clue's value (naked-singles propagation never changes a non-zero
cell).  The same invariant fails in the ColumnBasedSolver master, see
the C1 counterexample. -/
theorem ssUpdatePartial_preserves_clues (s : SSJobState) (br bc : Nat)
    (hdim : getBlockDimensions s.initialBlueprint.length = (br, bc))
    (H : ∀ r ∈ currentResults s, ∀ i2 < br, ∀ j2 < bc,
      bval r.sure i2 j2 = true →
      val s.initialBlueprint (r.blockRow * br + i2) (r.blockCol * bc + j2) ≠ 0 →
      val r.board i2 j2
        = val s.initialBlueprint (r.blockRow * br + i2) (r.blockCol * bc + j2))
    (i j : Nat) (hi : i < s.initialBlueprint.length)
    (hj : j < s.initialBlueprint.length)
    (hclue : val s.initialBlueprint i j ≠ 0) :
    val (ssUpdatePartialBoardFromSure s).currentBlueprint i j
      = val s.initialBlueprint i j := by
  have hrun : (ssUpdatePartialBoardFromSure s).currentBlueprint
      = applyNakedSinglesSS ((currentResults s).foldl (ssOverlayStep br bc)
          ((List.range s.initialBlueprint.length).foldl
            (ssInitStepOuter s.initialBlueprint s.initialBlueprint.length)
            (List.replicate s.initialBlueprint.length
              (List.replicate s.initialBlueprint.length 0)))) := by
    show applyNakedSinglesSS _ = _
    rw [hdim]
  have hW := ssWithInit_entry_clue s.initialBlueprint
    s.initialBlueprint.length i j hi hj hclue
  have hO := ssOverlay_preserves s.initialBlueprint br bc
    (currentResults s) i j H hclue _ hW
  have hfinal := nsLoop_keeps_nonzero 100 _ i j _ hO hclue
  rw [hrun]
  unfold val applyNakedSinglesSS
  rw [hfinal]
  rfl

/-- Witness for C1 (amended) at `ssClueState`, cell (0,0). -/
theorem ssUpdatePartial_preserves_clues_witness :
    getBlockDimensions ssClueState.initialBlueprint.length = (1, 2) ∧
    (∀ r ∈ currentResults ssClueState, ∀ i2 < 1, ∀ j2 < 2,
      bval r.sure i2 j2 = true →
      val ssClueState.initialBlueprint (r.blockRow * 1 + i2)
        (r.blockCol * 2 + j2) ≠ 0 →
      val r.board i2 j2
        = val ssClueState.initialBlueprint (r.blockRow * 1 + i2)
            (r.blockCol * 2 + j2)) ∧
    0 < ssClueState.initialBlueprint.length ∧
    val ssClueState.initialBlueprint 0 0 ≠ 0 ∧
    val (ssUpdatePartialBoardFromSure ssClueState).currentBlueprint 0 0
      = val ssClueState.initialBlueprint 0 0 :=
  ⟨by decide, by decide, by decide, by decide,
    ssUpdatePartial_preserves_clues ssClueState 1 2 (by decide) (by decide)
      0 0 (by decide) (by decide) (by decide)⟩

end Sudoku
